import Mathlib

/-!
Shallow embedding of the `bbtornado` repository
(`src/bbtornado/models.py` and `src/bbtornado/handlers.py`): the JSON
serialisation mixin `BaseModel._to_json` together with the module-level
`_to_json` helper, and the request-handler utilities (`authenticated`,
`BaseHandler.get_current_user`, `BaseHandler.db`, `BaseHandler.executor`).

Modelling conventions:

* Python strings are `String`; the string operations the code uses
  (`f.startswith(k)`, `'.' in f`, `f[1:]`, `f[f.index('.')+1:]`) are
  defined over `String.data`.
* Python sets of field names are deduplicated `List String` values; the
  code only ever observes membership of such a set and, for `only_fields`,
  its cardinality, so the (unspecified) iteration order of a Python set is
  fixed to the list order here.
* Python exceptions (`AttributeError` from `getattr`, the `IndexError`
  raised by `f[0]` on an empty directive, `HTTPError`, `NameError`) are
  modelled with `Except` / explicit error results.
* The object graph a model instance can reach is the inductive `PyVal`
  (None, ints, strings, lists/tuples, plain dicts, and mapped `BaseModel`
  instances carrying their class's field-visibility lists).  The recursion
  of the serialiser over this graph is bounded by an explicit `fuel`
  argument; every statement below is conditioned on the call returning
  `Except.ok`, and with enough fuel the embedding computes exactly what
  the Python code computes.
-/

namespace BBTornado

/-- Python `f.startswith(k)`. -/
def sStarts (f k : String) : Bool := k.data.isPrefixOf f.data

/-- Python `'.' in f`. -/
def sHasDot (f : String) : Bool := f.data.contains '.'

/-- Python `f[1:]`. -/
def sTail (f : String) : String := ⟨f.data.drop 1⟩

/-- Python `f[f.index('.')+1:]`: everything after the first `'.'` of `f`
(the code only evaluates this under the guard `'.' in f`). -/
def afterFirstDot (f : String) : String :=
  ⟨(f.data.dropWhile (fun c => c ≠ '.')).drop 1⟩

/-- The exceptions the embedded fragment can raise. -/
inductive PyErr : Type where
  /-- `getattr` on a missing attribute. -/
  | attributeError (name : String) : PyErr
  /-- `f[0]` on the empty string (in `_to_json`'s include filter). -/
  | indexError : PyErr
  /-- `int()` on a string that does not denote an integer. -/
  | valueError : PyErr
  /-- recursion fuel exhausted (artefact of the bounded embedding). -/
  | fuel : PyErr
deriving DecidableEq, Repr

/-- The per-class data `BaseModel._to_json` consults: the keys of the
mapped properties (`p.key for p in object_mapper(self).iterate_properties`)
and the three class-level visibility lists. -/
structure ClassSpec : Type where
  mapper_keys : List String
  json_fields_public : List String
  json_fields_private : List String
  json_fields_hidden : List String
deriving DecidableEq, Repr

/-- A Python value reachable from a model instance: `None`, an int, a
string, a list/tuple, a plain dict, or a mapped `BaseModel` instance
(its class data plus its gettable attributes). -/
inductive PyVal : Type where
  | vnone : PyVal
  | vint (n : Int) : PyVal
  | vstr (s : String) : PyVal
  | vlist (xs : List PyVal) : PyVal
  | vdict (xs : List (String × PyVal)) : PyVal
  | vobj (cls : ClassSpec) (attrs : List (String × PyVal)) : PyVal

/-- `o is None`. -/
def PyVal.isNone : PyVal → Bool
  | .vnone => true
  | _ => false

/-- Python `getattr(self, k)` on a model instance's attribute list:
the attribute's value, or `AttributeError` when it is missing. -/
def getattr (attrs : List (String × PyVal)) (k : String) : Except PyErr PyVal :=
  match attrs.lookup k with
  | some v => .ok v
  | none => .error (.attributeError k)

/-- `getattr(v, name)` on an arbitrary value, as used by the single-`'^'`
list shortcut: only model instances have gettable attributes here. -/
def objGetattr (v : PyVal) (name : String) : Except PyErr PyVal :=
  match v with
  | .vobj _ attrs => getattr attrs name
  | _ => .error (.attributeError name)

/-- `[ f for f in extra_fields if f.startswith('^') ]` with the `'^'`
stripped (`f[1:]`), i.e. the names given by top-level `'^'` directives. -/
def onlyDirs (ef : List String) : List String :=
  (ef.filter (fun f => sStarts f "^")).map sTail

/-- `f[1:] for f in extra_fields if f.startswith('!')`: the names removed
by `'!'` directives. -/
def bangDirs (ef : List String) : List String :=
  (ef.filter (fun f => sStarts f "!")).map sTail

/-- `f for f in extra_fields if '.' not in f and f[0] not in ('!^')`:
the plain include directives. -/
def plainIncludes (ef : List String) : List String :=
  ef.filter (fun f => !(sHasDot f) && !(sStarts f "!") && !(sStarts f "^"))

/-- The field-selection chain of `BaseModel._to_json` up to (and
including) the `'!'` and hidden removals, but before the `'^'`
intersection: mapper keys, plus `_json_fields_public`, minus
`_json_fields_private` when `private` is false, plus plain includes,
minus `'!'` directives, minus `_json_fields_hidden`. -/
def selBase (cls : ClassSpec) (priv : Bool) (ef : List String) : List String :=
  let s := cls.mapper_keys ++ cls.json_fields_public
  let s := if priv then s else s.filter (fun k => !(decide (k ∈ cls.json_fields_private)))
  let s := s ++ plainIncludes ef
  let s := s.filter (fun k => !(decide (k ∈ bangDirs ef)))
  s.filter (fun k => !(decide (k ∈ cls.json_fields_hidden)))

/-- The final `fields` set of `BaseModel._to_json`: `selBase` intersected
with the `'^'` names when at least one top-level `'^'` directive exists,
deduplicated (it is a Python set). -/
def selFields (cls : ClassSpec) (priv : Bool) (ef : List String) : List String :=
  let base := selBase cls priv ef
  let onlys := onlyDirs ef
  (if onlys.isEmpty then base else base.filter (fun k => decide (k ∈ onlys))).dedup

/-- The `fields` computation of `BaseModel._to_json` with its one
possible exception: the generator `f for f in extra_fields if '.' not in f
and f[0] not in ('!^')` evaluates `f[0]` and raises `IndexError` when
`extra_fields` contains the empty string. -/
def selectedFields (cls : ClassSpec) (priv : Bool) (ef : List String) :
    Except PyErr (List String) :=
  if "" ∈ ef then .error .indexError else .ok (selFields cls priv ef)

/-- `next_fields = { f[f.index('.')+1:] for f in extra_fields if '.' in f
and f.startswith(k) }`: the directives forwarded to the field `k`
(a Python set, hence deduplicated). -/
def nextFields (ef : List String) (k : String) : List String :=
  ((ef.filter (fun f => sHasDot f && sStarts f k)).map afterFirstDot).dedup

/-- The per-field body of the loop in `BaseModel._to_json`: compute the
forwarded directives and their `'^'` entries; when exactly one `'^'`
sub-directive exists and the value is a list/tuple, map the raw
`getattr(v, only_fields[0][1:])` over the list, otherwise recurse through
the module-level `_to_json` (the `render` argument) with the forwarded
directives. -/
def renderField (render : List String → PyVal → Except PyErr PyVal)
    (ef : List String) (k : String) (val : PyVal) : Except PyErr PyVal :=
  let nf := nextFields ef k
  let onlys := nf.filter (fun f => sStarts f "^")
  match onlys, val with
  | [o], .vlist xs =>
      match xs.mapM (fun x => objGetattr x (sTail o)) with
      | .error e => .error e
      | .ok ys => .ok (.vlist ys)
  | _, _ => render nf val

/-- The `for k in fields:` loop of `BaseModel._to_json`, building `rval`
in field order: `val = getattr(self, k)`, render it (`renderField`), and
keep the entry unless `skip_nulls` is set and the rendered value is
`None` (`if skip_nulls and rval[k] is None : del rval[k]`). -/
def renderFields (render : List String → PyVal → Except PyErr PyVal)
    (sk : Bool) (ef : List String) (attrs : List (String × PyVal)) :
    List String → Except PyErr (List (String × PyVal))
  | [] => .ok []
  | k :: ks =>
    match getattr attrs k with
    | .error e => .error e
    | .ok val =>
      match renderField render ef k val with
      | .error e => .error e
      | .ok rendered =>
        match renderFields render sk ef attrs ks with
        | .error e => .error e
        | .ok rest =>
            .ok (if sk && rendered.isNone then rest else (k, rendered) :: rest)

/-- The body of `BaseModel._to_json` for one instance, with the recursive
serialisation of field values abstracted as `render`. -/
def renderObj (render : List String → PyVal → Except PyErr PyVal)
    (priv sk : Bool) (ef : List String) (cls : ClassSpec)
    (attrs : List (String × PyVal)) : Except PyErr (List (String × PyVal)) :=
  match selectedFields cls priv ef with
  | .error e => .error e
  | .ok fields => renderFields render sk ef attrs fields

/-- The module-level `_to_json` of `models.py`, fuel-bounded: dicts and
lists/tuples are mapped elementwise with the same arguments, a model
instance goes through `BaseModel._to_json` (with `private`,
`extra_fields`, `skip_nulls` passed unchanged), and `None`/ints/strings
fall through unchanged. -/
def renderVal : Nat → Bool → Bool → List String → PyVal → Except PyErr PyVal
  | 0, _, _, _, _ => .error .fuel
  | Nat.succ fuel, priv, sk, ef, v =>
    match v with
    | .vlist xs =>
        match xs.mapM (fun x => renderVal fuel priv sk ef x) with
        | .error e => .error e
        | .ok ys => .ok (.vlist ys)
    | .vdict xs =>
        match xs.mapM (fun kv =>
            (match renderVal fuel priv sk ef kv.2 with
              | .error e => .error e
              | .ok r => .ok (kv.1, r) : Except PyErr (String × PyVal))) with
        | .error e => .error e
        | .ok ys => .ok (.vdict ys)
    | .vobj cls attrs =>
        match renderObj (fun ef2 v2 => renderVal fuel priv sk ef2 v2)
            priv sk ef cls attrs with
        | .error e => .error e
        | .ok entries => .ok (.vdict entries)
    | x => .ok x

/-- `BaseModel._to_json(self, private, extra_fields, skip_nulls)` on an
instance of class `cls` with attributes `attrs`, with `fuel` bounding the
depth of the recursion into field values. -/
def to_json (fuel : Nat) (cls : ClassSpec) (attrs : List (String × PyVal))
    (priv : Bool) (ef : List String) (sk : Bool) :
    Except PyErr (List (String × PyVal)) :=
  renderObj (fun ef2 v2 => renderVal fuel priv sk ef2 v2) priv sk ef cls attrs

/-! ### handlers.py -/

/-- The names bound at module level in `src/bbtornado/handlers.py` by
its four imports (`os`; `tornado.web`, binding `tornado`;
`ThreadPoolExecutor` from `concurrent.futures`; `scoped_session` from
`sqlalchemy.orm`).  `functools` is not among them. -/
def handlersModuleNames : List String :=
  ["os", "tornado", "ThreadPoolExecutor", "scoped_session"]

/-- The outcome of applying a Python decorator to a method: the wrapper
function, or the exception raised while evaluating the decorator body. -/
inductive DecorateResult (W : Type) : Type where
  | nameError (missing : String) : DecorateResult W
  | ok (wrapper : W) : DecorateResult W

/-- The `decorator(method)` step inside `authenticated`: evaluating the
decorator line `@functools.wraps(method)` looks the name `functools` up
in the module's global namespace and raises `NameError` when it is
unbound; only if that lookup succeeds is the wrapper produced. -/
def authenticatedDecorate {W : Type} (globalNames : List String)
    (wrapper : W) : DecorateResult W :=
  if "functools" ∈ globalNames then .ok wrapper else .nameError "functools"

/-- `tornado.web.HTTPError(error_code, log_message=error_message)`. -/
structure HTTPError : Type where
  status_code : Nat
  log_message : String
deriving DecidableEq, Repr

/-- The wrapper body written inside `authenticated(error_code,
error_message)`: raise `HTTPError` when `self.current_user` is falsy,
otherwise return `method(self, *args, **kwargs)` unchanged. -/
def authenticatedWrapper {H R : Type} (error_code : Nat)
    (error_message : String) (current_user : H → Bool) (method : H → R)
    (self : H) : Except HTTPError R :=
  if !(current_user self) then .error ⟨error_code, error_message⟩
  else .ok (method self)

/-- The handler-instance state observed by `BaseHandler.db` and
`BaseHandler.on_finish`: the optional `_session` attribute, plus a
counter from which `scoped_session(self.application.Session)` allocates
a fresh, previously unused session identity. -/
structure HandlerState : Type where
  _session : Option Nat
  nextSession : Nat
deriving DecidableEq, Repr

/-- The `db` property of `BaseHandler`: if the instance has no
`_session` attribute yet, create the session and store it; return the
(possibly just created) session together with the updated instance. -/
def db (s : HandlerState) : Nat × HandlerState :=
  match s._session with
  | some sess => (sess, s)
  | none => (s.nextSession,
      { _session := some s.nextSession, nextSession := s.nextSession + 1 })

/-- A value `BaseHandler.get_current_user` can produce: Python `None`,
the integer cookie value, or a user object fetched from the database. -/
inductive CurrentUser (U : Type) : Type where
  | none : CurrentUser U
  | int (n : Int) : CurrentUser U
  | user (u : U) : CurrentUser U

/-- `BaseHandler.get_current_user`.  `cookie` models
`self.get_secure_cookie('user_id')` (`Option.none` when the cookie is
absent or fails validation); `pyInt` models the builtin `int()`;
`user_model` is `self.application.user_model` paired, when it is set,
with the lookup `self.db.query(user_model).get` (which yields `none`
for a missing row).  Python's truthiness guard `if user_id` is false
exactly when the cookie is absent or the empty string. -/
def get_current_user {U : Type} (pyInt : String → Except PyErr Int)
    (user_model : Option (Int → Option U)) (cookie : Option String) :
    Except PyErr (CurrentUser U) :=
  match user_model with
  | some dbGet =>
      match cookie with
      | none => .ok .none
      | some s =>
          if s.data.isEmpty then .ok .none
          else
            match pyInt s with
            | .error e => .error e
            | .ok n => .ok (match dbGet n with
                | some u => .user u
                | none => .none)
  | none =>
      match cookie with
      | none => .ok .none
      | some s =>
          if s.data.isEmpty then .ok .none
          else
            match pyInt s with
            | .error e => .error e
            | .ok n => .ok (.int n)

/-- The value the claim says `get_current_user` produces in the
cookie-absent/empty and no-user-model cases: `None` for a falsy cookie,
otherwise the cookie value converted by `int()`. -/
def cookieOnlyUser {U : Type} (pyInt : String → Except PyErr Int) :
    Option String → Except PyErr (CurrentUser U)
  | none => .ok .none
  | some s =>
      if s.data.isEmpty then .ok .none
      else
        match pyInt s with
        | .error e => .error e
        | .ok n => .ok (.int n)

/-- `ThreadPoolExecutor(max_workers)`. -/
structure ThreadPoolExecutor : Type where
  max_workers : Nat
deriving DecidableEq, Repr

/-- The class attribute `_default_executor = ThreadPoolExecutor(10)` of
`BaseHandler`: evaluated once at class-definition time, hence one value
shared by every handler instance. -/
def default_executor : ThreadPoolExecutor := ⟨10⟩

/-- `BaseHandler.get_executor`, which returns the class-level
`_default_executor` whatever the instance. -/
def get_executor (_self : HandlerState) : ThreadPoolExecutor :=
  default_executor

/-- The `executor` property of `BaseHandler`: `return self.get_executor()`. -/
def executor (self : HandlerState) : ThreadPoolExecutor :=
  get_executor self

/-! ### Concrete model classes and instances used in the closed theorems -/

/-- A `User` model class whose `password` column is hidden. -/
def UserCls : ClassSpec := ⟨["id", "password"], [], [], ["password"]⟩

/-- A `Team` model class with a single relationship field `users`. -/
def TeamCls : ClassSpec := ⟨["users"], [], [], []⟩

/-- One user with a secret password. -/
def aliceAttrs : List (String × PyVal) :=
  [("id", .vint 1), ("password", .vstr "hunter2")]

/-- A team whose `users` list holds that one user. -/
def teamAttrs : List (String × PyVal) :=
  [("users", .vlist [.vobj UserCls aliceAttrs])]

/-- A class with two fields `a` and `ab`, one a string prefix of the
other, both holding nested objects of class `DCls`. -/
def CCls : ClassSpec := ⟨["a", "ab"], [], [], []⟩

/-- A nested class with plain fields `x` and `y`. -/
def DCls : ClassSpec := ⟨["x", "y"], [], [], []⟩

/-- An instance of `CCls` with distinct nested objects in `a` and `ab`. -/
def cAttrs : List (String × PyVal) :=
  [("a", .vobj DCls [("x", .vint 1), ("y", .vint 2)]),
   ("ab", .vobj DCls [("x", .vint 3), ("y", .vint 4)])]

/-- A class with one mapped field `id`. -/
def ECls : ClassSpec := ⟨["id"], [], [], []⟩

/-- An instance of `ECls` that additionally carries a non-mapped
attribute `extra` whose value is `None`. -/
def eAttrs : List (String × PyVal) := [("id", .vint 1), ("extra", .vnone)]

/-- A class with mapped fields `id` and `note`. -/
def FCls : ClassSpec := ⟨["id", "note"], [], [], []⟩

/-- An instance of `FCls` whose `note` is `None`. -/
def fAttrs : List (String × PyVal) := [("id", .vint 1), ("note", .vnone)]

/-- A class whose `secret` column is private. -/
def GCls : ClassSpec := ⟨["id", "secret"], [], ["secret"], []⟩

/-- An instance of `GCls`. -/
def gAttrs : List (String × PyVal) := [("id", .vint 1), ("secret", .vstr "s")]

/-! ### Helper lemmas about the field-selection set -/

theorem mem_selFields_iff (cls : ClassSpec) (priv : Bool) (ef : List String)
    (k : String) :
    k ∈ selFields cls priv ef ↔
      k ∈ selBase cls priv ef ∧ (onlyDirs ef = [] ∨ k ∈ onlyDirs ef) := by
  unfold selFields
  cases ho : onlyDirs ef with
  | nil => simp [List.mem_dedup]
  | cons o os =>
    simp [List.mem_dedup, List.mem_filter, ho]

theorem mem_selBase_private (cls : ClassSpec) (ef : List String) (k : String)
    (hk : k ∈ selBase cls false ef) (hp : k ∈ cls.json_fields_private) :
    k ∈ plainIncludes ef := by
  unfold selBase at hk
  simp only [Bool.false_eq_true, if_false, List.mem_filter, List.mem_append,
    Bool.not_eq_eq_eq_not, Bool.not_true, decide_eq_false_iff_not] at hk
  rcases hk.1.1 with h | h
  · exact absurd hp h.2
  · exact h

theorem mem_selBase_of_include (cls : ClassSpec) (priv : Bool)
    (ef : List String) (f : String) (hf : f ∈ plainIncludes ef)
    (hb : f ∉ bangDirs ef) (hh : f ∉ cls.json_fields_hidden) :
    f ∈ selBase cls priv ef := by
  unfold selBase
  cases priv <;>
    simp [List.mem_filter, List.mem_append, hf, hb, hh]

/-! ### Helper lemmas about the rendering loop -/

theorem renderFields_keys_subset
    (render : List String → PyVal → Except PyErr PyVal) (sk : Bool)
    (ef : List String) (attrs : List (String × PyVal)) :
    ∀ (fs : List String) (out : List (String × PyVal)),
      renderFields render sk ef attrs fs = .ok out → ∀ p ∈ out, p.1 ∈ fs := by
  intro fs
  induction fs with
  | nil =>
    intro out h p hp
    simp only [renderFields] at h
    cases h
    simp at hp
  | cons k ks ih =>
    intro out h p hp
    simp only [renderFields] at h
    cases hg : getattr attrs k with
    | error e =>
      simp only [hg] at h
      exact Except.noConfusion h
    | ok val =>
      simp only [hg] at h
      cases hr : renderField render ef k val with
      | error e =>
        simp only [hr] at h
        exact Except.noConfusion h
      | ok rendered =>
        simp only [hr] at h
        cases hrest : renderFields render sk ef attrs ks with
        | error e =>
          simp only [hrest] at h
          exact Except.noConfusion h
        | ok rest =>
          simp only [hrest, Except.ok.injEq] at h
          subst h
          by_cases hc : (sk && rendered.isNone) = true
          · rw [if_pos hc] at hp
            exact List.mem_cons_of_mem _ (ih rest hrest p hp)
          · rw [if_neg hc] at hp
            rcases List.mem_cons.mp hp with h1 | h1
            · subst h1; exact List.mem_cons_self _ _
            · exact List.mem_cons_of_mem _ (ih rest hrest p h1)

theorem renderFields_keys_eq
    (render : List String → PyVal → Except PyErr PyVal)
    (ef : List String) (attrs : List (String × PyVal)) :
    ∀ (fs : List String) (out : List (String × PyVal)),
      renderFields render false ef attrs fs = .ok out →
      out.map Prod.fst = fs := by
  intro fs
  induction fs with
  | nil =>
    intro out h
    simp only [renderFields] at h
    cases h
    rfl
  | cons k ks ih =>
    intro out h
    simp only [renderFields] at h
    cases hg : getattr attrs k with
    | error e =>
      simp only [hg] at h
      exact Except.noConfusion h
    | ok val =>
      simp only [hg] at h
      cases hr : renderField render ef k val with
      | error e =>
        simp only [hr] at h
        exact Except.noConfusion h
      | ok rendered =>
        simp only [hr] at h
        cases hrest : renderFields render false ef attrs ks with
        | error e =>
          simp only [hrest] at h
          exact Except.noConfusion h
        | ok rest =>
          simp only [hrest, Bool.false_and, Bool.false_eq_true, if_false,
            Except.ok.injEq] at h
          subst h
          simp [ih rest hrest]

theorem renderFields_no_none
    (render : List String → PyVal → Except PyErr PyVal)
    (ef : List String) (attrs : List (String × PyVal)) :
    ∀ (fs : List String) (out : List (String × PyVal)),
      renderFields render true ef attrs fs = .ok out →
      ∀ p ∈ out, p.2 ≠ PyVal.vnone := by
  intro fs
  induction fs with
  | nil =>
    intro out h p hp
    simp only [renderFields] at h
    cases h
    simp at hp
  | cons k ks ih =>
    intro out h p hp
    simp only [renderFields] at h
    cases hg : getattr attrs k with
    | error e =>
      simp only [hg] at h
      exact Except.noConfusion h
    | ok val =>
      simp only [hg] at h
      cases hr : renderField render ef k val with
      | error e =>
        simp only [hr] at h
        exact Except.noConfusion h
      | ok rendered =>
        simp only [hr] at h
        cases hrest : renderFields render true ef attrs ks with
        | error e =>
          simp only [hrest] at h
          exact Except.noConfusion h
        | ok rest =>
          simp only [hrest, Bool.true_and, Except.ok.injEq] at h
          subst h
          by_cases hc : rendered.isNone = true
          · rw [if_pos hc] at hp
            exact ih rest hrest p hp
          · rw [if_neg hc] at hp
            rcases List.mem_cons.mp hp with h1 | h1
            · subst h1
              intro hcon
              exact hc (by simp [show rendered = PyVal.vnone from hcon, PyVal.isNone])
            · exact ih rest hrest p h1

theorem renderFields_mem
    (render : List String → PyVal → Except PyErr PyVal) (sk : Bool)
    (ef : List String) (attrs : List (String × PyVal)) :
    ∀ (fs : List String) (out : List (String × PyVal)) (k : String),
      renderFields render sk ef attrs fs = .ok out → k ∈ fs →
      ∃ v r, getattr attrs k = .ok v ∧ renderField render ef k v = .ok r ∧
        ((sk = true ∧ r = PyVal.vnone) ∨ (k, r) ∈ out) := by
  intro fs
  induction fs with
  | nil =>
    intro out k _ hk
    simp at hk
  | cons k0 ks ih =>
    intro out k h hk
    simp only [renderFields] at h
    cases hg : getattr attrs k0 with
    | error e =>
      simp only [hg] at h
      exact Except.noConfusion h
    | ok val =>
      simp only [hg] at h
      cases hr : renderField render ef k0 val with
      | error e =>
        simp only [hr] at h
        exact Except.noConfusion h
      | ok rendered =>
        simp only [hr] at h
        cases hrest : renderFields render sk ef attrs ks with
        | error e =>
          simp only [hrest] at h
          exact Except.noConfusion h
        | ok rest =>
          simp only [hrest, Except.ok.injEq] at h
          subst h
          rcases List.mem_cons.mp hk with h1 | h1
          · subst h1
            refine ⟨val, rendered, hg, hr, ?_⟩
            by_cases hc : (sk && rendered.isNone) = true
            · left
              simp only [Bool.and_eq_true] at hc
              refine ⟨hc.1, ?_⟩
              have hn := hc.2
              cases rendered <;> simp [PyVal.isNone] at hn ⊢
            · right
              rw [if_neg hc]
              exact List.mem_cons_self _ _
          · rcases ih rest k hrest h1 with ⟨v, r, hv, hrr, hor⟩
            refine ⟨v, r, hv, hrr, ?_⟩
            rcases hor with h2 | h2
            · exact Or.inl h2
            · right
              by_cases hc : (sk && rendered.isNone) = true
              · rw [if_pos hc]; exact h2
              · rw [if_neg hc]; exact List.mem_cons_of_mem _ h2

/-! ### String helper lemmas for the dotted-directive analysis -/

theorem isPrefixOf_append_self (a b : List Char) :
    a.isPrefixOf (a ++ b) = true := by
  induction a with
  | nil => simp [List.isPrefixOf]
  | cons c cs ih => simp [List.isPrefixOf, ih]

theorem dropWhile_append_dot (a r : List Char) (h : '.' ∉ a) :
    (a ++ '.' :: r).dropWhile (fun c => decide (c ≠ '.')) = '.' :: r := by
  induction a with
  | nil =>
    rw [List.nil_append, List.dropWhile_cons]
    simp
  | cons c cs ih =>
    simp only [List.mem_cons, not_or] at h
    have hc : c ≠ '.' := fun hcc => h.1 hcc.symm
    rw [List.cons_append, List.dropWhile_cons, if_pos (by simp [hc]), ih h.2]

theorem nextFields_cons_self (parent rest : String) (ef : List String)
    (hp : sHasDot parent = false) :
    rest ∈ nextFields ((parent ++ "." ++ rest) :: ef) parent := by
  have hdata : (parent ++ "." ++ rest).data = parent.data ++ '.' :: rest.data := by
    simp [String.data_append]
  have hnd : '.' ∉ parent.data := by
    simp only [sHasDot, List.contains, List.elem_eq_mem,
      decide_eq_false_iff_not] at hp
    exact hp
  unfold nextFields
  rw [List.mem_dedup]
  apply List.mem_map.mpr
  refine ⟨parent ++ "." ++ rest, List.mem_filter.mpr ⟨List.mem_cons_self _ _, ?_⟩, ?_⟩
  · rw [Bool.and_eq_true]
    refine ⟨?_, ?_⟩
    · simp only [sHasDot, List.contains, List.elem_eq_mem, hdata]
      simp
    · unfold sStarts
      rw [hdata]
      exact isPrefixOf_append_self _ _
  · unfold afterFirstDot
    rw [hdata, dropWhile_append_dot _ _ hnd]
    rfl

theorem nextFields_cons_other (d : String) (ef : List String) (k : String)
    (hk : sStarts d k = false) :
    nextFields (d :: ef) k = nextFields ef k := by
  unfold nextFields
  simp [List.filter_cons, hk, Bool.and_false]

/-! ### The claims -/

/-- **C1** (code bug): the claim says a hidden field's value is never
emitted, in particular not through the single-`'^'` list shortcut, and
the docstring of `_to_json` agrees (`hidden fields are never shown`) —
but the shortcut at `models.py:110-111` maps the raw
`getattr(v, only_fields[0][1:])` over the list without consulting
`_json_fields_hidden`: serialising a team with
`extra_fields=['users.^password']` emits the hidden `password` value
`"hunter2"` verbatim. -/
theorem hidden_value_leaked_by_only_list :
    "password" ∈ UserCls.json_fields_hidden ∧
    to_json 3 TeamCls teamAttrs false ["users.^password"] false
      = .ok [("users", .vlist [.vstr "hunter2"])] :=
  ⟨by decide, rfl⟩

/-- **C2**: with `private=False`, every field listed in
`_json_fields_private` that is not explicitly named by a plain include
directive of `extra_fields` is absent from the keys of the dict produced
by `BaseModel._to_json`.  The theorem quantifies over an arbitrary call
(any fuel, `skip_nulls`, `extra_fields`, class and attribute list), and
`renderVal` hands `private` unchanged to every recursive serialisation,
so every nested model dict of an output is itself the result of such a
call: the property holds at every level of the recursion. -/
theorem private_absent_from_keys (fuel : Nat) (sk : Bool) (ef : List String)
    (cls : ClassSpec) (attrs : List (String × PyVal))
    (out : List (String × PyVal))
    (h : to_json fuel cls attrs false ef sk = .ok out) (k : String)
    (hk : k ∈ out.map Prod.fst) (hp : k ∈ cls.json_fields_private) :
    k ∈ plainIncludes ef := by
  unfold to_json renderObj at h
  cases hsf : selectedFields cls false ef with
  | error e =>
    simp only [hsf] at h
    exact Except.noConfusion h
  | ok fields =>
    simp only [hsf] at h
    rcases List.mem_map.mp hk with ⟨p, hpmem, hpk⟩
    have hsub := renderFields_keys_subset _ sk ef attrs fields out h p hpmem
    have hfields : fields = selFields cls false ef := by
      unfold selectedFields at hsf
      by_cases hemp : "" ∈ ef
      · simp [hemp] at hsf
      · simp [hemp] at hsf
        exact hsf.symm
    subst hpk
    rw [hfields] at hsub
    exact mem_selBase_private cls ef p.1
      ((mem_selFields_iff cls false ef p.1).mp hsub).1 hp

/-- Witness for `private_absent_from_keys`: serialising `GCls` with the
private field `secret` explicitly included. -/
theorem private_absent_from_keys_w : "secret" ∈ plainIncludes ["secret"] :=
  private_absent_from_keys 1 false ["secret"] GCls gAttrs
    [("id", .vint 1), ("secret", .vstr "s")] rfl "secret" (by decide)
    (by decide)

/-- **C3** counterexample: the claim says a dotted directive
`'parent.rest'` influences no field named differently from `parent`, but
the code tests `f.startswith(k)`: with fields `a` and `ab`, the single
directive `'ab.^x'` is also forwarded (as `'^x'`) to the field `a`,
whose nested dict loses its `y` key compared to the run without the
directive. -/
theorem dotted_directive_prefix_influence :
    to_json 3 CCls cAttrs false ["ab.^x"] false
      = .ok [("a", .vdict [("x", .vint 1)]), ("ab", .vdict [("x", .vint 3)])] ∧
    to_json 3 CCls cAttrs false [] false
      = .ok [("a", .vdict [("x", .vint 1), ("y", .vint 2)]),
             ("ab", .vdict [("x", .vint 3), ("y", .vint 4)])] :=
  ⟨rfl, rfl⟩

/-- **C3** amended: a dotted directive `'parent.rest'` (with a dot-free
`parent`) is forwarded, as the text after its first dot, to the nested
serialisation call for the field named `parent` — but it is scoped by
string-prefix matching (`f.startswith(k)`), not by exact field name: it
is also forwarded to every other selected field whose name is a string
prefix of the whole directive, and it influences no field whose name is
not such a prefix.  (`nextFields ef k` is exactly the `extra_fields`
argument `renderField` passes to the nested serialisation of field
`k`.) -/
theorem dotted_directive_scoping (parent rest : String)
    (hp : sHasDot parent = false) (ef : List String) (k : String) :
    rest ∈ nextFields ((parent ++ "." ++ rest) :: ef) parent ∧
    (sStarts (parent ++ "." ++ rest) k = false →
      nextFields ((parent ++ "." ++ rest) :: ef) k = nextFields ef k) :=
  ⟨nextFields_cons_self parent rest ef hp,
   fun h => nextFields_cons_other _ ef k h⟩

/-- Witness for `dotted_directive_scoping`: the directive `ab.x` forwards
`x` to the field `ab` and leaves the directives of the unrelated field
`zz` unchanged. -/
theorem dotted_directive_scoping_w :
    "x" ∈ nextFields (("ab" ++ "." ++ "x") :: []) "ab" ∧
    nextFields (("ab" ++ "." ++ "x") :: []) "zz" = nextFields [] "zz" :=
  ⟨(dotted_directive_scoping "ab" "x" (by decide) [] "zz").1,
   (dotted_directive_scoping "ab" "x" (by decide) [] "zz").2 (by decide)⟩

/-- **C4** counterexample: the claim's provisos do not mention
`skip_nulls`, but with `skip_nulls=True` an explicitly included field
whose rendered value is `None` is deleted again: including `extra`
(value `None`) leaves no `extra` key. -/
theorem plain_include_dropped_by_skip_nulls :
    to_json 1 ECls eAttrs false ["extra"] true = .ok [("id", .vint 1)] ∧
    "extra" ∉ ([("id", PyVal.vint 1)].map Prod.fst) :=
  ⟨rfl, by decide⟩

/-- **C4** amended: an entry `f` of `extra_fields` with no dot and not
starting with `'!'` or `'^'` is selected whenever `f` is not hidden, no
`'!'` directive removes it and no top-level `'^'` directive excludes it;
the successful call then rendered `getattr(self, f)` under the directives
forwarded to `f` (`renderField`), and `f` is a key of the result bound to
that rendered value — unless `skip_nulls` is true and the rendered value
is `None`, in which case the entry is deleted. -/
theorem plain_include_rendered (fuel : Nat) (priv sk : Bool)
    (ef : List String) (cls : ClassSpec) (attrs : List (String × PyVal))
    (out : List (String × PyVal)) (f : String)
    (h : to_json fuel cls attrs priv ef sk = .ok out)
    (hf : f ∈ ef) (hdot : sHasDot f = false) (hbang : sStarts f "!" = false)
    (hcaret : sStarts f "^" = false) (hhid : f ∉ cls.json_fields_hidden)
    (hnotban : f ∉ bangDirs ef)
    (honly : onlyDirs ef = [] ∨ f ∈ onlyDirs ef) :
    ∃ v r, getattr attrs f = .ok v ∧
      renderField (fun ef2 v2 => renderVal fuel priv sk ef2 v2) ef f v
        = .ok r ∧
      ((sk = true ∧ r = PyVal.vnone) ∨ (f, r) ∈ out) := by
  have hinc : f ∈ plainIncludes ef := by
    unfold plainIncludes
    simp [List.mem_filter, hf, hdot, hbang, hcaret]
  have hsel : f ∈ selFields cls priv ef :=
    (mem_selFields_iff cls priv ef f).mpr
      ⟨mem_selBase_of_include cls priv ef f hinc hnotban hhid, honly⟩
  unfold to_json renderObj at h
  cases hsf : selectedFields cls priv ef with
  | error e =>
    simp only [hsf] at h
    exact Except.noConfusion h
  | ok fields =>
    simp only [hsf] at h
    have hfields : fields = selFields cls priv ef := by
      unfold selectedFields at hsf
      by_cases hemp : "" ∈ ef
      · simp [hemp] at hsf
      · simp [hemp] at hsf
        exact hsf.symm
    exact renderFields_mem _ sk ef attrs fields out f h (hfields ▸ hsel)

/-- Witness for `plain_include_rendered`: the non-mapped attribute
`extra`, explicitly included, keyed in the result. -/
theorem plain_include_rendered_w :
    ∃ v r, getattr eAttrs "extra" = .ok v ∧
      renderField (fun ef2 v2 => renderVal 1 false false ef2 v2)
        ["extra"] "extra" v = .ok r ∧
      ((false = true ∧ r = PyVal.vnone) ∨
        ("extra", r) ∈ [("id", PyVal.vint 1), ("extra", PyVal.vnone)]) :=
  plain_include_rendered 1 false false ["extra"] ECls eAttrs
    [("id", .vint 1), ("extra", .vnone)] "extra" rfl (by decide) (by decide)
    (by decide) (by decide) (by decide) (by decide) (Or.inl rfl)

/-- **C5** counterexample: with `skip_nulls=True` the key set is not the
stated intersection: `note` lies in the otherwise-selected set and among
the `'^'` names, yet its `None` value gets the key deleted. -/
theorem only_keyset_shrunk_by_skip_nulls :
    to_json 1 FCls fAttrs false ["^id", "^note"] true = .ok [("id", .vint 1)] ∧
    "note" ∈ selBase FCls false ["^id", "^note"] ∧
    "note" ∈ onlyDirs ["^id", "^note"] ∧
    "note" ∉ ([("id", PyVal.vint 1)].map Prod.fst) :=
  ⟨rfl, by decide, by decide, by decide⟩

/-- **C5** amended: when `skip_nulls` is false, the key set of the
returned dict is exactly the otherwise-selected field set (`selBase`)
intersected with the `'^'` names when at least one top-level `'^'`
directive exists, and the full otherwise-selected set when none does;
when `skip_nulls` is true, keys whose rendered value is `None` are
additionally deleted. -/
theorem only_directive_keyset (fuel : Nat) (priv : Bool) (ef : List String)
    (cls : ClassSpec) (attrs : List (String × PyVal))
    (out : List (String × PyVal))
    (h : to_json fuel cls attrs priv ef false = .ok out) (k : String) :
    k ∈ out.map Prod.fst ↔
      k ∈ selBase cls priv ef ∧ (onlyDirs ef = [] ∨ k ∈ onlyDirs ef) := by
  unfold to_json renderObj at h
  cases hsf : selectedFields cls priv ef with
  | error e =>
    simp only [hsf] at h
    exact Except.noConfusion h
  | ok fields =>
    simp only [hsf] at h
    have hfields : fields = selFields cls priv ef := by
      unfold selectedFields at hsf
      by_cases hemp : "" ∈ ef
      · simp [hemp] at hsf
      · simp [hemp] at hsf
        exact hsf.symm
    rw [renderFields_keys_eq _ ef attrs fields out h, hfields]
    exact mem_selFields_iff cls priv ef k

/-- Witness for `only_directive_keyset`: `FCls` under
`extra_fields=['^id','^note']` without `skip_nulls`. -/
theorem only_directive_keyset_w :
    "note" ∈ ([("id", PyVal.vint 1), ("note", PyVal.vnone)].map Prod.fst) ↔
      "note" ∈ selBase FCls false ["^id", "^note"] ∧
        (onlyDirs ["^id", "^note"] = [] ∨
          "note" ∈ onlyDirs ["^id", "^note"]) :=
  only_directive_keyset 1 false ["^id", "^note"] FCls fAttrs
    [("id", .vint 1), ("note", .vnone)] rfl "note"

/-- **C6** (code bug): `handlers.py` never imports `functools`, so
applying `authenticated(...)` to any method raises `NameError` while
evaluating `@functools.wraps(method)` — the wrapper the claim describes
is never produced. -/
theorem authenticated_decorate_nameError :
    authenticatedDecorate handlersModuleNames
      (authenticatedWrapper 401 "Not Found" (fun _ : Unit => false)
        (fun _ : Unit => (0 : Nat)))
      = .nameError "functools" := rfl

/-- **C7**: `BaseHandler.get_current_user` returns `None` whenever the
`user_id` secure cookie is absent or empty, regardless of
`application.user_model`; and when the cookie is present (non-empty) and
`user_model` is `None`, it returns `int(cookie)`. -/
theorem get_current_user_cookie_spec {U : Type}
    (pyInt : String → Except PyErr Int)
    (user_model : Option (Int → Option U)) (cookie : Option String)
    (h : cookie = none ∨ cookie = some "" ∨ user_model = none) :
    get_current_user pyInt user_model cookie = cookieOnlyUser pyInt cookie := by
  rcases h with h | h | h
  · subst h
    cases user_model <;> rfl
  · subst h
    cases user_model <;> rfl
  · subst h
    cases cookie with
    | none => rfl
    | some s => rfl

/-- Witness for `get_current_user_cookie_spec`: no user model, cookie
`"17"`, `int()` returning 17. -/
theorem get_current_user_cookie_spec_w :
    get_current_user (fun _ => .ok 17) (none : Option (Int → Option Unit))
      (some "17") = .ok (.int 17) :=
  (get_current_user_cookie_spec (fun _ => .ok 17) none (some "17")
    (Or.inr (Or.inr rfl))).trans rfl

/-- **C8**: after any access to `BaseHandler.db` the `_session` attribute
holds exactly the session that access returned, and a second access
returns the very same session with no further effect on the handler:
the lazy initialisation is idempotent. -/
theorem db_lazy_idempotent (s : HandlerState) :
    (db s).2._session = some (db s).1 ∧
      db ((db s).2) = ((db s).1, (db s).2) := by
  cases h : s._session with
  | none => simp [db, h]
  | some v => simp [db, h]

/-- **C9**: `BaseHandler.executor` yields the single class-level
`ThreadPoolExecutor(10)`: the same pool for every handler instance, of
fixed size 10. -/
theorem executor_shared_fixed_size (h1 h2 : HandlerState) :
    executor h1 = executor h2 ∧ (executor h1).max_workers = 10 :=
  ⟨rfl, rfl⟩

/-- **C10**: with `skip_nulls=True`, no key of the dict produced by
`BaseModel._to_json` maps to `None` — every field whose rendered value is
`None` is deleted.  The theorem quantifies over an arbitrary call (any
fuel, `private`, `extra_fields`, class and attribute list), and
`renderVal` hands `skip_nulls` unchanged to every recursive
serialisation, so every nested model dict of an output is itself the
result of such a call and is equally free of `None` values. -/
theorem skip_nulls_no_none (fuel : Nat) (priv : Bool) (ef : List String)
    (cls : ClassSpec) (attrs : List (String × PyVal))
    (out : List (String × PyVal))
    (h : to_json fuel cls attrs priv ef true = .ok out)
    (k : String) (v : PyVal) (hkv : (k, v) ∈ out) : v ≠ PyVal.vnone := by
  unfold to_json renderObj at h
  cases hsf : selectedFields cls priv ef with
  | error e =>
    simp only [hsf] at h
    exact Except.noConfusion h
  | ok fields =>
    simp only [hsf] at h
    exact renderFields_no_none _ ef attrs fields out h (k, v) hkv

/-- Witness for `skip_nulls_no_none`: the surviving `id` entry of the
`FCls` serialisation is not `None`. -/
theorem skip_nulls_no_none_w : PyVal.vint 1 ≠ PyVal.vnone :=
  skip_nulls_no_none 1 false [] FCls fAttrs [("id", .vint 1)] rfl "id"
    (.vint 1) (List.Mem.head _)

end BBTornado
